import Mathlib

/-!
Verification development for the smap_io image-to-time-series reshuffling
engine (`smap_io/img2ts.py` and `smap_io/interface.py`).

The Python source is shallowly embedded: machine floats of the source are
modelled as rationals (the claims under study only use order, equality and
selection on values, never rounding), numpy arrays become lists, masked /
NaN entries of time arrays become `Option` values, datetimes become
integers, and Python exceptions become `Except` results.  External
collaborators (the repurpose `parallel_process` driver, the pygeogrids
grid object) are modelled from their documented contracts exactly where
the source relies on them: `parallel_process` maps the worker over the
items in order, drops `None` results and propagates the first exception;
a grid exposes parallel arrays of gpis, longitudes and latitudes.
-/

namespace Smap

/-! ## Generic list helpers mirroring the numpy operations used in the source -/

/-- Model of boolean-mask indexing `xs[mask]` on numpy arrays: keep the
entries of `xs` whose mask entry is `true`. -/
def maskFilter (mask : List Bool) (xs : List α) : List α :=
  ((xs.zip mask).filter (fun p => p.2)).map Prod.fst

/-- Model of fancy indexing `xs[p]` with an index array `p`
(out-of-range indices yield the default, which never happens in the runs
we consider). -/
def applyPerm (p : List Nat) (xs : List α) (d : α) : List α :=
  p.map (fun i => xs.getD i d)

/-- Model of `np.argsort` on an integer array: the list of indices of `ts`
sorted by the corresponding values (any sorting algorithm serves as a
model of the numpy quicksort; insertion sort keeps the definition
kernel-computable). -/
def argsort (ts : List Int) : List Nat :=
  List.insertionSort (fun i j => ts.getD i 0 ≤ ts.getD j 0)
    (List.range ts.length)

/-- Loop of the chunking model: `acc` holds the current chunk reversed
and `c` the remaining capacity of the current chunk. -/
def chunks_go (B : Nat) : List α → List α → Nat → List (List α)
  | acc, [], _ => [acc.reverse]
  | acc, x :: xs, 0 => acc.reverse :: chunks_go B [x] xs (B - 1)
  | acc, x :: xs, c + 1 => chunks_go B (x :: acc) xs c

/-- Model of `repurpose.process.idx_chunks`: cut the list of requested
timestamps into consecutive chunks of size `B` (the image buffer size,
at least 1 in any meaningful run; `max B 1` guards the model against a
zero buffer). -/
def chunksOf (B : Nat) : List α → List (List α)
  | [] => []
  | x :: xs => chunks_go (max B 1) [x] xs (max B 1 - 1)

/-- Loop of the `np.split` model: `off` is the absolute position of the
start of the remaining list `xs`. -/
def npSplitGo (off : Nat) : List α → List Nat → List (List α)
  | xs, [] => [xs]
  | xs, i :: is => xs.take (i - off) :: npSplitGo i (xs.drop (i - off)) is

/-- Model of `np.split(xs, idxs)`: slices of `xs` between consecutive split
indices, with a leading slice before the first index and a trailing slice
after the last one. -/
def npSplit (xs : List α) (idxs : List Nat) : List (List α) :=
  npSplitGo 0 xs idxs

/-! ## Embedding of Img2Ts image reading (`img2ts.py`, `_read_image` / `img_bulk`) -/

/-- One image as produced by the Image Reader collaborator for one date:
its (image-level) timestamp, whether it designates a time key (a variable
holding one observation time per sample), and its per-variable data rows. -/
structure SimImage where
  timestamp : Int
  timekeyPresent : Bool
  vars : List (String × List ℚ)
deriving DecidableEq, Inhabited

/-- Layout decision of `Img2Ts._read_image` (img2ts.py lines 387-413):
given the run state `orthogonal` (`none` before any image fixed the mode)
and whether the image at hand carries a time key, either return the mode
for this image or raise the `Img2TsError` layout-consistency error. -/
def layout_check (orthogonal : Option Bool) (timekeyPresent : Bool) :
    Except String Bool :=
  if timekeyPresent then
    match orthogonal with
    | none => .ok false
    | some o =>
      if o then
        .error "Images can not switch between a fixed image timestamp and individual timestamps for each observation"
      else .ok false
  else
    match orthogonal with
    | none => .ok true
    | some o =>
      if !o then
        .error "Images can not switch between a fixed image timestamp and individual timestamps for each observation"
      else .ok true

/-- Embedding of `Img2Ts._read_image` for one date, restricted to the
layout bookkeeping (the spatial resample/subset branch is embedded
separately below): a reader failure (`IOError`, modelled as `rd d = none`)
is caught and yields `none`; otherwise the layout check runs against the
snapshot of `self.orthogonal` that the call observes. -/
def read_image (rd : Int → Option SimImage) (orthogonal : Option Bool)
    (d : Int) : Except String (Option (SimImage × Bool)) :=
  match rd d with
  | none => .ok none
  | some img =>
    match layout_check orthogonal img.timekeyPresent with
    | .error e => .error e
    | .ok o => .ok (some (img, o))

/-- One `parallel_process` invocation of `img_bulk` over the dates of one
buffer chunk: every date of the chunk is read against the same snapshot of
`self.orthogonal` (the attribute is only updated after the whole chunk is
collected), failed dates disappear from the result list, and the first
raised exception propagates. -/
def read_chunk (rd : Int → Option SimImage) (orthogonal : Option Bool) :
    List Int → Except String (List (SimImage × Bool))
  | [] => .ok []
  | d :: ds =>
    match read_image rd orthogonal d with
    | .error e => .error e
    | .ok none => read_chunk rd orthogonal ds
    | .ok (some ib) =>
      match read_chunk rd orthogonal ds with
      | .error e => .error e
      | .ok rest => .ok (ib :: rest)

/-- Variable names collected into `img_dict` for one chunk (insertion
order of first appearance, as for a Python dict). -/
def img_keys (ims : List SimImage) : List String :=
  (ims.flatMap (fun im => im.vars.map Prod.fst)).dedup

/-- Rows appended to `img_dict[k]` while popping the chunk results in
order: one row per image that carries variable `k`. -/
def stack_var (ims : List SimImage) (k : String) : List (List ℚ) :=
  ims.filterMap (fun im => im.vars.lookup k)

/-- One Buffered Block as yielded by `img_bulk`: the per-image timestamp
array and the per-variable time-major stacks. -/
structure Block where
  timestamps : List Int
  vars : List (String × List (List ℚ))
deriving DecidableEq

/-- Assembly of the yielded block at the end of one chunk of `img_bulk`
(img2ts.py lines 821-849): collect the timestamps of the successfully read
images, compute `order = np.argsort(timestamps)` once, and apply the same
`order` to the timestamp array and to every stacked variable. -/
def mk_block (imgs : List (SimImage × Bool)) : Block :=
  let ims := imgs.map Prod.fst
  let ts := ims.map SimImage.timestamp
  let p := argsort ts
  { timestamps := applyPerm p ts 0,
    vars := (img_keys ims).map (fun k => (k, applyPerm p (stack_var ims k) [])) }

/-- Chunk loop of `Img2Ts.img_bulk`: process buffer chunks in order,
threading `self.orthogonal` (set from the first popped result of a chunk
when still `None`) and collecting the yielded blocks.  A block is yielded
for every chunk, also when every read of the chunk failed. -/
def img_bulk_aux (rd : Int → Option SimImage) :
    Option Bool → List (List Int) → Except String (List Block)
  | _, [] => .ok []
  | orth, c :: cs =>
    match read_chunk rd orth c with
    | .error e => .error e
    | .ok imgs =>
      match img_bulk_aux rd (orth <|> (imgs.head?.map Prod.snd)) cs with
      | .error e => .error e
      | .ok bs => .ok (mk_block imgs :: bs)

/-- Expansion of the requested timestamps by `elements_per_folders`
(img2ts.py lines 785-790): timestamp `i` is repeated
`elements_per_folders[i]` times.  The source indexes
`self.elements_per_folders[i]` directly, so the run crashes unless a list
at least as long as the timestamp list is supplied. -/
def expand_ts (ts : List Int) (epf : List Nat) : List Int :=
  (ts.zip epf).flatMap (fun p => List.replicate p.2 p.1)

/-- Embedding of `Img2Ts.img_bulk`: expand the requested timestamps,
chunk them by the image buffer size and run the chunk loop starting with
`self.orthogonal = None`. -/
def img_bulk (rd : Int → Option SimImage) (ts : List Int) (epf : List Nat)
    (B : Nat) : Except String (List Block) :=
  img_bulk_aux rd none (chunksOf B (expand_ts ts epf))

/-- Embedding of `SPL3SMP_Ds.tstamps_for_daterange` (interface.py lines
455-481): one timestamp per day of the inclusive range, each duplicated
when the overpass configuration is BOTH. -/
def tstamps_for_daterange (start_d end_d : Int) (overpassBoth : Bool) :
    List Int :=
  let base := (List.range (end_d - start_d + 1).toNat).map (fun i => start_d + i)
  if overpassBoth then base.flatMap (fun t => [t, t]) else base

/-! ## Embedding of the per-cell partitioning in `Img2Ts.calc` -/

/-- Adjacent-pair sortedness check `np.all(cells[:-1] <= cells[1:])`
(img2ts.py line 648). -/
def adjSorted : List Int → Bool
  | [] => true
  | [_] => true
  | a :: b :: r => decide (a ≤ b) && adjSorted (b :: r)

/-- First-occurrence indices returned by
`np.unique(cells, return_index=True)`: for each distinct cell value in
ascending order, the index of its first occurrence in `cells`. -/
def unique_first_idxs (cells : List Int) : List Nat :=
  (List.insertionSort (fun a b => a ≤ b) cells.dedup).map
    (fun v => cells.indexOf v)

/-- Embedding of the cell partitioning of one Buffered Block in
`Img2Ts.calc` (img2ts.py lines 645-709): sort the grid arrays by cell id
when they are not already sorted, compute the unique-cell boundaries and
split the gpi array there; the leading (empty) slice of `np.split` is
dropped.  Returns the per-cell gpi groups. -/
def calc_partition (cells gpis : List Int) : List (List Int) :=
  let p := argsort cells
  let gs := if adjSorted cells then gpis else applyPerm p gpis 0
  let cs := if adjSorted cells then cells else applyPerm p cells 0
  (npSplit gs (unique_first_idxs cs)).drop 1

/-! ## Embedding of the cell writer retry loop
(`_write_orthogonal` img2ts.py lines 446-481 and `_write_non_orthogonal`
lines 554-620 share the identical loop skeleton
`while True: try: ...; break / except OSError: log; time.sleep(3)`). -/

/-- Outcome of one attempt to open/write the cell archive: success,
an `OSError` (file contention, caught by the loop), or any other
exception (not caught, propagates). -/
inductive AttemptResult where
  | ok
  | osError
  | fatal
deriving DecidableEq

/-- Observable outcome of the retry loop after at most `fuel` iterations:
the loop broke out after a successful write at attempt `n`, an uncaught
exception propagated at attempt `n`, or the loop is still retrying. -/
inductive RetryOutcome where
  | success (n : Nat)
  | propagated (n : Nat)
  | stillRunning
deriving DecidableEq

/-- The `while True` retry loop of both cell writers, unrolled `fuel`
iterations starting at attempt number `k`: a successful body breaks, an
`OSError` is logged, slept on and retried, anything else propagates. -/
def write_retry_loop (attempt : Nat → AttemptResult) (k fuel : Nat) :
    RetryOutcome :=
  match fuel with
  | 0 => .stillRunning
  | fuel + 1 =>
    match attempt k with
    | .ok => .success k
    | .fatal => .propagated k
    | .osError => write_retry_loop attempt (k + 1) fuel

/-! ## Embedding of the record filtering in `Img2Ts._write_non_orthogonal`
(img2ts.py lines 510-612, non-resample path, i.e. `self.resample` false;
time entries are `Option` values, `none` standing for NaN/masked). -/

/-- Sentinel timestamp compared against in the
`exclude_missing_time_stamps` branch (img2ts.py line 588). -/
def sentinelTime : ℚ := -9999

/-- Arguments the writer hands to `IndexedRaggedTs.write` for one cell:
the flat per-record gpi/lon/lat columns, the flat timestamp column and
one flat column per data variable, all position-aligned. -/
structure RaggedWriteCall where
  gpis : List Int
  lons : List ℚ
  lats : List ℚ
  time : List ℚ
  data : List (String × List ℚ)
deriving DecidableEq

/-- The local `valid_mask = np.isfinite(gpi_time)` of
`_write_non_orthogonal` on the flattened time array (`none` = NaN or
masked). -/
def wno_valid_mask (ts : List (Option ℚ)) : List Bool :=
  ts.map Option.isSome

/-- The local `gpi_time[valid_mask].filled()` of `_write_non_orthogonal`:
the valid time entries as plain numbers. -/
def wno_tvalid (ts : List (Option ℚ)) : List ℚ :=
  (maskFilter (wno_valid_mask ts) ts).map (fun o => o.getD 0)

/-- Complement of the `time_id = np.where(... == -9999.)` index set of the
`exclude_missing_time_stamps` branch: which valid records survive the
`np.delete` calls. -/
def wno_keep (ts : List (Option ℚ)) : List Bool :=
  (wno_tvalid ts).map (fun t => decide ¬(t = sentinelTime))

/-- The full column pipeline of `_write_non_orthogonal` with
`exclude_missing_time_stamps` enabled: drop invalid-time records, then
delete the sentinel-time records. -/
def wno_col (ts : List (Option ℚ)) (xs : List α) : List α :=
  maskFilter (wno_keep ts) (maskFilter (wno_valid_mask ts) xs)

/-- Embedding of `_write_non_orthogonal` (non-resample path): repeat the
per-location gpi, lon and lat `nT` times (`np.repeat(cell_gpis, n_t)`),
flatten the time-key matrix, drop records with NaN/masked time
(`valid_mask = np.isfinite(gpi_time)`), and, when
`exclude_missing_time_stamps` is set, additionally delete the records
whose (valid) timestamp equals `-9999.` from every column before calling
`write`. -/
def write_non_orthogonal (excludeMissing : Bool) (cell_gpis : List Int)
    (cell_lons cell_lats : List ℚ) (timeMat : List (List (Option ℚ)))
    (vars : List (String × List (List ℚ))) (nT : Nat) : RaggedWriteCall :=
  let gpis0 := cell_gpis.flatMap (fun g => List.replicate nT g)
  let lons0 := cell_lons.flatMap (fun x => List.replicate nT x)
  let lats0 := cell_lats.flatMap (fun x => List.replicate nT x)
  let ts := timeMat.flatten
  if excludeMissing then
    { gpis := wno_col ts gpis0,
      lons := wno_col ts lons0,
      lats := wno_col ts lats0,
      time := maskFilter (wno_keep ts) (wno_tvalid ts),
      data := vars.map (fun kv => (kv.1, wno_col ts kv.2.flatten)) }
  else
    { gpis := maskFilter (wno_valid_mask ts) gpis0,
      lons := maskFilter (wno_valid_mask ts) lons0,
      lats := maskFilter (wno_valid_mask ts) lats0,
      time := wno_tvalid ts,
      data := vars.map
        (fun kv => (kv.1, maskFilter (wno_valid_mask ts) kv.2.flatten)) }

/-! ## Embedding of the valid-range masking in `SPL3SMP_Img.read`
(interface.py lines 249-258). -/

/-- Per-parameter masking applied by `SPL3SMP_Img.read` when the
parameter attributes declare `_FillValue`, `valid_min` and `valid_max`:
`np.where(np.logical_or(data < valid_min, data > valid_max), fill_value,
data)`. -/
def mask_valid_range (fill vmin vmax : ℚ) (data : List ℚ) : List ℚ :=
  data.map (fun x => if x < vmin ∨ vmax < x then fill else x)

/-! ## Embedding of the module-global overpass toggle of `interface.py`
(lines 49-63 define `counter`, `overpass_state_AM`, `increment_counter`
and `overpass_change`; `SPL3SMP_Img.read` consults them at lines 173-181
and updates them at lines 285-290).  The two globals are process-wide and
shared by every reader instance, so they are threaded as one state value
through the sequence of `read` calls of the process. -/

/-- The module globals of `interface.py`: `counter = 0` and
`overpass_state_AM = True` at process start. -/
structure OverpassGlobals where
  counter : Nat
  overpass_state_AM : Bool
deriving DecidableEq

/-- Initial values of the module globals. -/
def init_globals : OverpassGlobals := { counter := 0, overpass_state_AM := true }

/-- Embedding of `increment_counter('counter')`. -/
def increment_counter (g : OverpassGlobals) : OverpassGlobals :=
  { g with counter := g.counter + 1 }

/-- Embedding of `overpass_change('overpass_state_AM')`. -/
def overpass_change (g : OverpassGlobals) : OverpassGlobals :=
  { g with overpass_state_AM := !g.overpass_state_AM }

/-- One `SPL3SMP_Img.read` call with `overpass='BOTH'`: the overpass
actually read is decided from `overpass_state_AM` at the start of the
call (interface.py lines 174-178, `true` = AM), and after reading the
globals are updated (lines 285-290): the state is flipped only when
`counter > 0`, and the counter is always incremented. -/
def read_overpass_step (g : OverpassGlobals) : Bool × OverpassGlobals :=
  let isAM := g.overpass_state_AM
  let g2 :=
    if g.counter > 0 then increment_counter (overpass_change g)
    else increment_counter g
  (isAM, g2)

/-- The module globals after `n` reads with `overpass='BOTH'` in a fresh
process. -/
def globals_after : Nat → OverpassGlobals
  | 0 => init_globals
  | n + 1 => (read_overpass_step (globals_after n)).2

/-- Which overpass the `(n+1)`-th read call of a fresh process returns
(`n = 0` is the first call; `true` = AM data). -/
def op_at (n : Nat) : Bool := (read_overpass_step (globals_after n)).1

/-! ## Embedding of the resample/subset decision
(`is_subset_grid` img2ts.py lines 18-58, the `self.resample` choice in
`Img2Ts.__init__` lines 237-247 and the spatial branch of `_read_image`
lines 345-385).  A grid is its list of active points; the pygeogrids
nearest-neighbour lookup is embedded as an exact argmin over squared
coordinate distances, and `subgrid_from_gpis` keeps the gpis in the order
they are passed. -/

/-- One active grid location: stable point index and coordinates. -/
structure GridPoint where
  gpi : Int
  lon : ℤ
  lat : ℤ
deriving DecidableEq

/-- Squared coordinate distance used by the nearest-neighbour model. -/
def sqDist (plon plat qlon qlat : ℤ) : ℤ :=
  (plon - qlon) * (plon - qlon) + (plat - qlat) * (plat - qlat)

/-- Fold computing the entry with minimal distance (first strict minimum
wins, as for an argmin scan). -/
def nearestFold (l : List (Int × ℤ)) (init : Int × ℤ) : Int × ℤ :=
  l.foldl (fun best cur => if cur.2 < best.2 then cur else best) init

/-- Model of `grid.find_nearest_gpi(lon, lat)` for a single query point:
the gpi of the closest active point together with the (squared) distance
to it. -/
def find_nearest_gpi (g : List GridPoint) (qlon qlat : ℤ) : Int × ℤ :=
  match g.map (fun p => (p.gpi, sqDist p.lon p.lat qlon qlat)) with
  | [] => (-1, 0)
  | c :: cs => nearestFold cs c

/-- Embedding of `is_subset_grid(grid, other, compare_index)` (img2ts.py
lines 18-58): every point of `other` must have a zero-distance nearest
neighbour in `grid`, and with `compare_index` the gpis found (in the
order of the points of `other`, which is what
`grid.subgrid_from_gpis(gpis).activegpis` yields) must equal the active
gpis of `other`. -/
def is_subset_grid (grid other : List GridPoint) (compare_index : Bool) :
    Bool :=
  let nn := other.map (fun q => find_nearest_gpi grid q.lon q.lat)
  if !(nn.all (fun r => r.2 == 0)) then false
  else if compare_index then decide (nn.map Prod.fst = other.map GridPoint.gpi)
  else true

/-- The `self.resample` decision of `Img2Ts.__init__` (img2ts.py lines
237-247) when both grids are given: no resampling when the grids are
equal or when the target grid is an index-compatible subset of the input
grid. -/
def resample_flag (input_grid target_grid : List GridPoint) : Bool :=
  if input_grid = target_grid then false
  else if is_subset_grid input_grid target_grid true then false
  else true

/-- Which spatial branch of `_read_image` handles one variable of the
image, and the resulting data array for the subset and pass-through
branches (the resample branch delegates to the external resampler). -/
inductive SpatialResult where
  | resamplePath
  | subsetPath (vals : List ℚ)
  | passthroughPath (vals : List ℚ)
deriving DecidableEq

/-- Spatial branch of `_read_image` (img2ts.py lines 345-385): resample
when `self.resample` is set; otherwise, when the active location counts
differ, select the input positions whose gpi is in the target active set
(`idx = np.where(np.isin(input_grid.activegpis, target_grid.activegpis))`,
`data = v[idx]`); otherwise use the data as is. -/
def read_image_spatial (resample : Bool)
    (input_grid target_grid : List GridPoint) (v : List ℚ) : SpatialResult :=
  if resample then .resamplePath
  else if target_grid.length ≠ input_grid.length then
    .subsetPath (maskFilter
      (input_grid.map (fun p => decide (p.gpi ∈ target_grid.map GridPoint.gpi)))
      v)
  else .passthroughPath v

/-- Value associated with a gpi by pairing a grid with a data array
positionally (how an Image associates `image.data` entries with
locations). -/
def value_at (g : List GridPoint) (vals : List ℚ) (gpi : Int) : Option ℚ :=
  ((g.map GridPoint.gpi).zip vals).lookup gpi

/-! ## Concrete run fixtures used by counterexamples and witnesses -/

/-- Reader producing an orthogonal-style image for day 1 and a
ragged-style image (with a time key) for day 2. -/
def rd_layout_mix : Int → Option SimImage := fun d =>
  if d = 1 then some ⟨1, false, [("soil_moisture", [1])]⟩
  else if d = 2 then some ⟨2, true, [("soil_moisture", [2]), ("tb_time_seconds", [5])]⟩
  else none

/-- Reader for the scenario of claim C7: days 1 and 3 read fine, day 2
fails with an I/O error. -/
def rd_day2_fails : Int → Option SimImage := fun d =>
  if d = 1 then some ⟨1, false, [("soil_moisture", [10])]⟩
  else if d = 3 then some ⟨3, false, [("soil_moisture", [30])]⟩
  else none

/-- Reader that succeeds on every date, stamping each image with the
requested date. -/
def rd_every_day : Int → Option SimImage := fun d =>
  some ⟨d, false, [("soil_moisture", [1])]⟩

/-- A chunk result whose reads completed out of timestamp order
(timestamp 5 before timestamp 3). -/
def imgs_unordered : List (SimImage × Bool) :=
  [(⟨5, false, [("soil_moisture", [1])]⟩, true),
   (⟨3, false, [("soil_moisture", [2])]⟩, true)]

/-- A three-point input grid on a line. -/
def inputC6 : List GridPoint := [⟨0, 0, 0⟩, ⟨1, 1, 0⟩, ⟨2, 2, 0⟩]

/-- A strict subset of `inputC6` (same coordinates and gpis for the
common points) whose active order is permuted relative to the input. -/
def targetC6 : List GridPoint := [⟨2, 2, 0⟩, ⟨0, 0, 0⟩]

end Smap

namespace Smap

/-! ## Generic lemmas about the list helpers -/

theorem range_map_getD (xs : List α) (d : α) :
    (List.range xs.length).map (fun i => xs.getD i d) = xs := by
  induction xs with
  | nil => rfl
  | cons x t ih =>
    simp only [List.length_cons, List.range_succ_eq_map, List.map_cons,
      List.map_map]
    have hc : ((fun i => (x :: t).getD i d) ∘ Nat.succ) =
        fun i => t.getD i d := by
      funext i
      simp [List.getD_cons_succ]
    rw [hc, ih]
    rfl

theorem applyPerm_perm (p : List Nat) (xs : List α) (d : α)
    (hp : p.Perm (List.range xs.length)) : (applyPerm p xs d).Perm xs := by
  have h := hp.map (fun i => xs.getD i d)
  rwa [range_map_getD] at h

theorem argsort_perm (ts : List Int) :
    (argsort ts).Perm (List.range ts.length) :=
  List.perm_insertionSort _ _

theorem argsort_pairwise (ts : List Int) :
    (argsort ts).Pairwise (fun i j => ts.getD i 0 ≤ ts.getD j 0) := by
  haveI : IsTotal Nat (fun i j => ts.getD i 0 ≤ ts.getD j 0) :=
    ⟨fun a b => le_total _ _⟩
  haveI : IsTrans Nat (fun i j => ts.getD i 0 ≤ ts.getD j 0) :=
    ⟨fun a b c => le_trans⟩
  exact List.sorted_insertionSort _ _

theorem argsort_length (ts : List Int) : (argsort ts).length = ts.length := by
  have := (argsort_perm ts).length_eq
  simpa using this

theorem argsort_mem_lt {ts : List Int} {i : Nat} (hi : i ∈ argsort ts) :
    i < ts.length := by
  have := (argsort_perm ts).mem_iff.mp hi
  simpa using this

theorem applyPerm_argsort_sorted (ts : List Int) :
    (applyPerm (argsort ts) ts 0).Sorted (· ≤ ·) := by
  unfold applyPerm List.Sorted
  rw [List.pairwise_map]
  exact argsort_pairwise ts

/-! ## Claim C9: valid-range masking in `SPL3SMP_Img.read` -/

/-- C9: for a parameter whose attributes declare `_FillValue`, `valid_min`
and `valid_max`, every sample strictly outside the valid range is replaced
by the fill value and every sample inside the range keeps its raw value. -/
theorem spl3smp_valid_range_masking (fill vmin vmax : ℚ) (data : List ℚ)
    (i : Nat) (hi : i < data.length) :
    ((data.getD i 0 < vmin ∨ vmax < data.getD i 0) →
      (mask_valid_range fill vmin vmax data).getD i 0 = fill) ∧
    (vmin ≤ data.getD i 0 → data.getD i 0 ≤ vmax →
      (mask_valid_range fill vmin vmax data).getD i 0 = data.getD i 0) := by
  have hlen : i < (mask_valid_range fill vmin vmax data).length := by
    simpa [mask_valid_range] using hi
  rw [List.getD_eq_getElem _ _ hlen, List.getD_eq_getElem _ _ hi]
  simp only [mask_valid_range, List.getElem_map]
  constructor
  · intro h
    exact if_pos h
  · intro h1 h2
    have h : ¬(data[i] < vmin ∨ vmax < data[i]) := by
      push_neg
      exact ⟨h1, h2⟩
    exact if_neg h

/-- Witness for C9 at a concrete input: sample 0 (value 5, above the
valid range 0..1) becomes the fill value -1, sample 1 (value 1, inside
the range) is unchanged. -/
theorem spl3smp_valid_range_masking_witness :
    (mask_valid_range (-1) 0 1 [5, 1]).getD 0 0 = -1 ∧
    (mask_valid_range (-1) 0 1 [5, 1]).getD 1 0 = ([5, 1] : List ℚ).getD 1 0 :=
  ⟨(spl3smp_valid_range_masking (-1) 0 1 [5, 1] 0 (by decide)).1
      (Or.inr (by norm_num)),
   (spl3smp_valid_range_masking (-1) 0 1 [5, 1] 1 (by decide)).2
      (by norm_num) (by norm_num)⟩

/-! ## Claim C10: process-wide overpass toggle for `overpass='BOTH'` -/

theorem globals_after_spec (n : Nat) :
    globals_after n =
      { counter := n,
        overpass_state_AM := decide (n = 0) || decide (n % 2 = 1) } := by
  induction n with
  | zero => rfl
  | succ n ih =>
    have h1 : globals_after (n + 1) = (read_overpass_step (globals_after n)).2 :=
      rfl
    rw [h1, ih]
    rcases Nat.eq_zero_or_pos n with h | h
    · subst h
      rfl
    · have hn0 : ¬ n = 0 := by omega
      rcases Nat.mod_two_eq_zero_or_one n with h2 | h2
      · have h3 : (n + 1) % 2 = 1 := by omega
        simp [read_overpass_step, increment_counter, overpass_change, h,
          hn0, h2, h3]
      · have h3 : (n + 1) % 2 = 0 := by omega
        have h4 : ¬ (n + 1) = 0 := by omega
        simp [read_overpass_step, increment_counter, overpass_change, h,
          hn0, h2, h3, h4]

/-- C10: with `overpass='BOTH'` the overpass returned by the `n`-th read
call of a fresh process is driven by the shared module globals: the first
and second calls both return AM data, and from the second call on the
call at (0-based) position `n` returns AM exactly when `n` is odd, i.e.
the sequence is AM, AM, PM, AM, PM, ... -/
theorem spl3smp_overpass_both_sequence :
    op_at 0 = true ∧ op_at 1 = true ∧
    ∀ n, 1 ≤ n → (op_at n = true ↔ n % 2 = 1) := by
  refine ⟨rfl, rfl, ?_⟩
  intro n hn
  have h : op_at n = (globals_after n).overpass_state_AM := rfl
  rw [h, globals_after_spec]
  have hn0 : ¬ n = 0 := by omega
  simp [hn0]

/-- Witness for C10: the third read call of a fresh process returns PM
data. -/
theorem spl3smp_overpass_both_sequence_witness :
    op_at 0 = true ∧ op_at 1 = true ∧ (op_at 2 = true ↔ 2 % 2 = 1) :=
  ⟨spl3smp_overpass_both_sequence.1, spl3smp_overpass_both_sequence.2.1,
   spl3smp_overpass_both_sequence.2.2 2 (by omega)⟩

/-! ## Claim C2: the cell writer retry loop -/

set_option maxRecDepth 4000 in
/-- C2 counterexample: the claim says the retry loop is bounded by a small
fixed number of attempts after which the error propagates; in the source
both cell writers loop `while True` catching `OSError`, so after 1000
consecutive contention failures the loop is still retrying and no error
has propagated. -/
theorem cell_write_retry_counterexample :
    write_retry_loop (fun _ => AttemptResult.osError) 0 1000 =
      RetryOutcome.stillRunning := by
  decide

/-- C2 amended: the retry loop of `_write_orthogonal` and
`_write_non_orthogonal` is unbounded.  The loop exits successfully only
when a write attempt succeeds, propagates only exceptions other than
`OSError`, and under persistent `OSError` contention it retries forever
(with a fixed 3 second sleep between attempts) without ever propagating
the error or dropping the data. -/
theorem cell_write_retry_unbounded :
    (∀ attempt k fuel n,
      write_retry_loop attempt k fuel = RetryOutcome.success n →
        attempt n = AttemptResult.ok) ∧
    (∀ attempt k fuel n,
      write_retry_loop attempt k fuel = RetryOutcome.propagated n →
        attempt n = AttemptResult.fatal) ∧
    (∀ k fuel,
      write_retry_loop (fun _ => AttemptResult.osError) k fuel =
        RetryOutcome.stillRunning) := by
  refine ⟨?_, ?_, ?_⟩
  · intro attempt k fuel
    induction fuel generalizing k with
    | zero =>
      intro n h
      simp [write_retry_loop] at h
    | succ f ih =>
      intro n h
      rw [write_retry_loop] at h
      split at h
      · rename_i hak
        cases h
        exact hak
      · rename_i hak
        simp at h
      · rename_i hak
        exact ih (k + 1) n h
  · intro attempt k fuel
    induction fuel generalizing k with
    | zero =>
      intro n h
      simp [write_retry_loop] at h
    | succ f ih =>
      intro n h
      rw [write_retry_loop] at h
      split at h
      · rename_i hak
        simp at h
      · rename_i hak
        cases h
        exact hak
      · rename_i hak
        exact ih (k + 1) n h
  · intro k fuel
    induction fuel generalizing k with
    | zero => rfl
    | succ f ih =>
      rw [write_retry_loop]
      exact ih (k + 1)

/-- Witness for C2 amended at concrete attempt sequences: a write that
succeeds at the third attempt exits the loop with a successful attempt, a
non-OSError exception propagates, and fifty consecutive contention
failures leave the loop still retrying. -/
theorem cell_write_retry_unbounded_witness :
    ((fun n => if 2 ≤ n then AttemptResult.ok else AttemptResult.osError) 2 =
      AttemptResult.ok) ∧
    ((fun n => if 1 ≤ n then AttemptResult.fatal else AttemptResult.osError) 1 =
      AttemptResult.fatal) ∧
    (write_retry_loop (fun _ => AttemptResult.osError) 0 50 =
      RetryOutcome.stillRunning) :=
  ⟨cell_write_retry_unbounded.1
      (fun n => if 2 ≤ n then AttemptResult.ok else AttemptResult.osError)
      0 5 2 (by decide),
   cell_write_retry_unbounded.2.1
      (fun n => if 1 ≤ n then AttemptResult.fatal else AttemptResult.osError)
      0 5 1 (by decide),
   cell_write_retry_unbounded.2.2 0 50⟩

/-! ## Claim C3: blocks are sorted by timestamp with all variables permuted alike -/

theorem applyPerm_getD (p : List Nat) (xs : List α) (d : α) (i : Nat)
    (hi : i < p.length) :
    (applyPerm p xs d).getD i d = xs.getD (p.getD i 0) d := by
  rw [List.getD_eq_getElem _ _ (by simpa [applyPerm] using hi)]
  simp only [applyPerm, List.getElem_map]
  rw [List.getD_eq_getElem _ _ hi]

theorem getD_map_of_lt (f : α → β) (l : List α) (j : Nat) (hj : j < l.length)
    (d : α) (d2 : β) : (l.map f).getD j d2 = f (l.getD j d) := by
  rw [List.getD_eq_getElem _ _ (by simpa using hj),
    List.getD_eq_getElem _ _ hj]
  simp

theorem stack_var_eq_map (ims : List SimImage) (k : String)
    (hk : ∀ im ∈ ims, (im.vars.lookup k).isSome = true) :
    stack_var ims k = ims.map (fun im => (im.vars.lookup k).getD []) := by
  induction ims with
  | nil => rfl
  | cons im t ih =>
    obtain ⟨v, hv⟩ := Option.isSome_iff_exists.mp (hk im (by simp))
    have ht := ih (fun x hx => hk x (by simp [hx]))
    have hcons : stack_var (im :: t) k = v :: stack_var t k := by
      simp [stack_var, hv]
    rw [hcons, List.map_cons, ht]
    simp [hv]

theorem img_bulk_aux_blocks (rd : Int → Option SimImage) :
    ∀ (cs : List (List Int)) (orth : Option Bool) (bs : List Block),
      img_bulk_aux rd orth cs = Except.ok bs →
      ∀ b ∈ bs, ∃ res, b = mk_block res := by
  intro cs
  induction cs with
  | nil =>
    intro orth bs h b hb
    rw [img_bulk_aux] at h
    cases h
    simp at hb
  | cons c cs ih =>
    intro orth bs h b hb
    rw [img_bulk_aux] at h
    split at h
    · simp at h
    · rename_i imgs heq
      split at h
      · simp at h
      · rename_i bs2 heq2
        cases h
        rcases List.mem_cons.mp hb with rfl | hmem
        · exact ⟨imgs, rfl⟩
        · exact ih _ _ heq2 b hmem

/-- C3: every Buffered Block is sorted by ascending (non-decreasing)
timestamp, and one common index `j` (per row `i`) aligns the timestamp
array with every per-variable stack: row `i` of every variable comes from
the same read image as `timestamps[i]`, whatever order the per-date reads
completed in (the statement quantifies over an arbitrary result order).
Moreover every block yielded by `img_bulk` is of this `mk_block` form. -/
theorem img_bulk_block_sorted_aligned (imgs : List (SimImage × Bool))
    (hk : ∀ im ∈ imgs.map Prod.fst, ∀ k ∈ img_keys (imgs.map Prod.fst),
      (im.vars.lookup k).isSome = true) :
    (mk_block imgs).timestamps.Sorted (· ≤ ·) ∧
    (∀ i, i < (mk_block imgs).timestamps.length →
      ∃ j, j < imgs.length ∧
        (mk_block imgs).timestamps.getD i 0 =
          ((imgs.map Prod.fst).getD j default).timestamp ∧
        ∀ kv ∈ (mk_block imgs).vars,
          kv.2.getD i [] =
            (((imgs.map Prod.fst).getD j default).vars.lookup kv.1).getD []) ∧
    (∀ rd ts epf B bs, img_bulk rd ts epf B = Except.ok bs →
      ∀ b ∈ bs, ∃ res, b = mk_block res) := by
  refine ⟨?_, ?_, ?_⟩
  · exact applyPerm_argsort_sorted _
  · intro i hi
    have hts : (mk_block imgs).timestamps =
        applyPerm (argsort ((imgs.map Prod.fst).map SimImage.timestamp))
          ((imgs.map Prod.fst).map SimImage.timestamp) 0 := rfl
    have hvs : (mk_block imgs).vars =
        (img_keys (imgs.map Prod.fst)).map
          (fun k => (k, applyPerm
            (argsort ((imgs.map Prod.fst).map SimImage.timestamp))
            (stack_var (imgs.map Prod.fst) k) [])) := rfl
    have hip : i <
        (argsort ((imgs.map Prod.fst).map SimImage.timestamp)).length := by
      rw [hts] at hi
      simpa [applyPerm] using hi
    have hjmem :
        (argsort ((imgs.map Prod.fst).map SimImage.timestamp)).getD i 0 ∈
          argsort ((imgs.map Prod.fst).map SimImage.timestamp) := by
      rw [List.getD_eq_getElem _ _ hip]
      exact List.getElem_mem _
    have hjlt :
        (argsort ((imgs.map Prod.fst).map SimImage.timestamp)).getD i 0 <
          ((imgs.map Prod.fst).map SimImage.timestamp).length :=
      argsort_mem_lt hjmem
    have hjlt2 :
        (argsort ((imgs.map Prod.fst).map SimImage.timestamp)).getD i 0 <
          (imgs.map Prod.fst).length := by
      simpa using hjlt
    refine ⟨(argsort ((imgs.map Prod.fst).map SimImage.timestamp)).getD i 0,
      by simpa using hjlt, ?_, ?_⟩
    · rw [hts, applyPerm_getD _ _ _ _ hip]
      exact getD_map_of_lt SimImage.timestamp (imgs.map Prod.fst) _ hjlt2
        default 0
    · intro kv hkv
      rw [hvs] at hkv
      obtain ⟨k, hkmem, hkeq⟩ := List.mem_map.mp hkv
      subst hkeq
      have hsv := stack_var_eq_map (imgs.map Prod.fst) k
        (fun im hm => hk im hm k hkmem)
      show (applyPerm _ (stack_var (imgs.map Prod.fst) k) []).getD i [] = _
      rw [applyPerm_getD _ _ _ _ hip, hsv]
      exact getD_map_of_lt _ (imgs.map Prod.fst) _ hjlt2 default []
  · intro rd ts0 epf B bs h b hb
    rw [img_bulk] at h
    exact img_bulk_aux_blocks rd _ none bs h b hb

/-- Witness for C3 at the concrete out-of-order chunk `imgs_unordered`
(timestamp 5 read before timestamp 3): the assembled block is sorted and
row 0 of every variable comes from the image whose timestamp stands at
position 0. -/
theorem img_bulk_block_sorted_aligned_witness :
    (mk_block imgs_unordered).timestamps.Sorted (· ≤ ·) ∧
    (∃ j, j < imgs_unordered.length ∧
      (mk_block imgs_unordered).timestamps.getD 0 0 =
        ((imgs_unordered.map Prod.fst).getD j default).timestamp ∧
      ∀ kv ∈ (mk_block imgs_unordered).vars,
        kv.2.getD 0 [] =
          (((imgs_unordered.map Prod.fst).getD j default).vars.lookup
            kv.1).getD []) :=
  ⟨(img_bulk_block_sorted_aligned imgs_unordered (by decide)).1,
   (img_bulk_block_sorted_aligned imgs_unordered (by decide)).2.1 0
     (by decide)⟩

/-! ## Claim C7: a failed middle date with buffer size 1 -/

/-- C7 counterexample: with `imgbuffer=1`, three consecutive days and an
I/O failure on day 2 the run does not yield exactly two blocks as the
claim states: it yields three blocks, one (empty) block per buffer chunk,
because `img_bulk` yields unconditionally at the end of each chunk even
when every read of the chunk failed (`Img2Ts.calc` explicitly tolerates
such empty bulks at img2ts.py lines 722-726). -/
theorem img_bulk_skip_day_counterexample :
    (img_bulk rd_day2_fails [1, 2, 3] [1, 1, 1] 1).map List.length =
      Except.ok 3 ∧ (3 : Nat) ≠ 2 := by
  constructor
  · rfl
  · decide

/-- C7 amended: the run completes without raising, day 2 appears in no
yielded block, and the blocks for day 1 and day 3 each hold a single
timestamp, in that order — but an additional empty block is yielded for
the failed chunk of day 2, so three blocks are produced, not two. -/
theorem img_bulk_skip_day_amended :
    img_bulk rd_day2_fails [1, 2, 3] [1, 1, 1] 1 =
      Except.ok
        [{ timestamps := [1], vars := [("soil_moisture", [[10]])] },
         { timestamps := [], vars := [] },
         { timestamps := [3], vars := [("soil_moisture", [[30]])] }] := by
  rfl

/-! ## Claim C8: duplicate timestamps inside one block -/

/-- C8 counterexample: with `overpass='BOTH'`, `tstamps_for_daterange`
requests every day twice, both reads of the day return an image stamped
with that same day, and the yielded block carries the duplicated
timestamp, violating the claimed no-duplicates invariant. -/
theorem img_bulk_duplicate_counterexample :
    tstamps_for_daterange 0 0 true = [0, 0] ∧
    img_bulk rd_every_day (tstamps_for_daterange 0 0 true) [1, 1] 2 =
      Except.ok
        [{ timestamps := [0, 0],
           vars := [("soil_moisture", [[1], [1]])] }] ∧
    ¬ ([(0 : Int), 0].Nodup) := by
  refine ⟨rfl, rfl, by decide⟩

theorem chunks_go_sublist (B : Nat) :
    ∀ (xs acc : List α) (c : Nat), ∀ ch ∈ chunks_go B acc xs c,
      ch.Sublist (acc.reverse ++ xs) := by
  intro xs
  induction xs with
  | nil =>
    intro acc c ch hch
    simp only [chunks_go, List.mem_singleton] at hch
    subst hch
    simp
  | cons x xs ih =>
    intro acc c ch hch
    match c with
    | 0 =>
      simp only [chunks_go] at hch
      rcases List.mem_cons.mp hch with rfl | hmem
      · exact List.sublist_append_left _ _
      · have h2 := ih [x] (B - 1) ch hmem
        simp only [List.reverse_cons, List.reverse_nil, List.nil_append] at h2
        refine h2.trans ?_
        exact List.sublist_append_right _ _
    | c + 1 =>
      simp only [chunks_go] at hch
      have h2 := ih (x :: acc) c ch hch
      simpa [List.append_assoc] using h2

theorem chunksOf_sublist (B : Nat) (l : List α) :
    ∀ c ∈ chunksOf B l, c.Sublist l := by
  match l with
  | [] =>
    intro c hc
    simp [chunksOf] at hc
  | x :: xs =>
    intro c hc
    simp only [chunksOf] at hc
    have h := chunks_go_sublist (max B 1) xs [x] (max B 1 - 1) c hc
    simpa using h

theorem read_chunk_timestamps_sublist (rd : Int → Option SimImage)
    (hrd : ∀ d im, rd d = some im → im.timestamp = d) :
    ∀ (orth : Option Bool) (ds : List Int) (imgs : List (SimImage × Bool)),
      read_chunk rd orth ds = Except.ok imgs →
      ((imgs.map Prod.fst).map SimImage.timestamp).Sublist ds := by
  intro orth ds
  induction ds with
  | nil =>
    intro imgs h
    rw [read_chunk] at h
    cases h
    simp
  | cons d ds ih =>
    intro imgs h
    rw [read_chunk] at h
    split at h
    · simp at h
    · rename_i heqread
      exact (ih imgs h).trans (List.sublist_cons_self _ _)
    · rename_i ib heqread
      split at h
      · simp at h
      · rename_i rest heqrest
        cases h
        have hts : ib.1.timestamp = d := by
          rw [read_image] at heqread
          split at heqread
          · simp at heqread
          · rename_i img hrdd
            split at heqread
            · simp at heqread
            · rename_i o hlc
              simp only [Except.ok.injEq, Option.some.injEq] at heqread
              rw [← heqread]
              exact hrd d img hrdd
        simp only [List.map_cons]
        rw [hts]
        exact (ih rest heqrest).cons₂ d

theorem img_bulk_aux_nodup (rd : Int → Option SimImage)
    (hrd : ∀ d im, rd d = some im → im.timestamp = d) :
    ∀ (cs : List (List Int)) (orth : Option Bool) (bs : List Block),
      (∀ c ∈ cs, c.Nodup) → img_bulk_aux rd orth cs = Except.ok bs →
      ∀ b ∈ bs, b.timestamps.Nodup := by
  intro cs
  induction cs with
  | nil =>
    intro orth bs _ h b hb
    rw [img_bulk_aux] at h
    cases h
    simp at hb
  | cons c cs ih =>
    intro orth bs hnd h b hb
    rw [img_bulk_aux] at h
    split at h
    · simp at h
    · rename_i imgs heq
      split at h
      · simp at h
      · rename_i bs2 heq2
        cases h
        rcases List.mem_cons.mp hb with rfl | hmem
        · have hsub := read_chunk_timestamps_sublist rd hrd orth c imgs heq
          have hnodup : ((imgs.map Prod.fst).map SimImage.timestamp).Nodup :=
            hsub.nodup (hnd c (by simp))
          have hperm : (mk_block imgs).timestamps.Perm
              ((imgs.map Prod.fst).map SimImage.timestamp) :=
            applyPerm_perm _ _ _ (argsort_perm _)
          exact (hperm.symm.nodup hnodup)
        · exact ih _ _ (fun x hx => hnd x (by simp [hx])) heq2 b hmem

/-- C8 amended: a yielded block can contain duplicate timestamps exactly
when the expanded requested timestamp sequence does (as with
`overpass='BOTH'` or `elements_per_folders` entries above 1, which
request the same timestamp twice).  Whenever the expanded request
sequence is duplicate-free — the plain single-overpass configuration —
every block yielded by `img_bulk` has pairwise distinct timestamps. -/
theorem img_bulk_no_duplicate_timestamps (rd : Int → Option SimImage)
    (ts : List Int) (epf : List Nat) (B : Nat) (bs : List Block)
    (hrd : ∀ d im, rd d = some im → im.timestamp = d)
    (hnd : (expand_ts ts epf).Nodup)
    (hok : img_bulk rd ts epf B = Except.ok bs) :
    ∀ b ∈ bs, b.timestamps.Nodup := by
  rw [img_bulk] at hok
  exact img_bulk_aux_nodup rd hrd _ none bs
    (fun c hc => (chunksOf_sublist B _ c hc).nodup hnd) hok

/-- Witness for C8 amended: a two-day single-overpass run with buffer 1
yields blocks with duplicate-free timestamps. -/
theorem img_bulk_no_duplicate_timestamps_witness :
    ({ timestamps := [1], vars := [("soil_moisture", [[1]])] } :
      Block).timestamps.Nodup :=
  img_bulk_no_duplicate_timestamps rd_every_day [1, 2] [1, 1] 1
    [{ timestamps := [1], vars := [("soil_moisture", [[1]])] },
     { timestamps := [2], vars := [("soil_moisture", [[1]])] }]
    (fun d im h => by
      simp only [rd_every_day, Option.some.injEq] at h
      rw [← h])
    (by decide) rfl _ (by simp)

/-! ## Claim C1: layout mode establishment and consistency errors -/

/-- C1 counterexample: with a buffer of 2, the first chunk holds an
orthogonal image (day 1, no time key) followed by a ragged image (day 2,
with a time key).  The mode is established orthogonal by the first image,
yet the contradicting second image raises nothing — both reads of the
chunk ran against the not-yet-updated run state (`self.orthogonal` is
still `None` while `parallel_process` works through the chunk), so the
run succeeds and the ragged image is silently stacked into the orthogonal
block. -/
theorem img2ts_layout_counterexample :
    (rd_layout_mix 1).map SimImage.timekeyPresent = some false ∧
    (rd_layout_mix 2).map SimImage.timekeyPresent = some true ∧
    (img_bulk rd_layout_mix [1, 2] [1, 1] 2).isOk = true := by
  refine ⟨rfl, rfl, rfl⟩

theorem some_orElse_state (a : α) (x : Option α) : (some a <|> x) = some a :=
  rfl

theorem read_image_contradiction (rd : Int → Option SimImage) (o : Bool)
    (d : Int) (im : SimImage) (hrd : rd d = some im)
    (hc : im.timekeyPresent = o) :
    ∃ e, read_image rd (some o) d = Except.error e := by
  have h1 : read_image rd (some o) d =
      (match layout_check (some o) im.timekeyPresent with
       | .error e => .error e
       | .ok o2 => .ok (some (im, o2))) := by
    rw [read_image, hrd]
  rw [h1, hc]
  cases o
  · exact ⟨_, rfl⟩
  · exact ⟨_, rfl⟩

theorem read_chunk_contradiction (rd : Int → Option SimImage) (o : Bool) :
    ∀ (c : List Int) (d : Int) (im : SimImage), d ∈ c → rd d = some im →
      im.timekeyPresent = o →
      (read_chunk rd (some o) c).isOk = false := by
  intro c
  induction c with
  | nil =>
    intro d im hd
    simp at hd
  | cons d0 c ih =>
    intro d im hd hrd hc
    rw [read_chunk]
    rcases List.mem_cons.mp hd with rfl | hmem
    · obtain ⟨e, he⟩ := read_image_contradiction rd o d im hrd hc
      rw [he]
      rfl
    · cases hri : read_image rd (some o) d0 with
      | error e => rfl
      | ok v =>
        cases v with
        | none => exact ih d im hmem hrd hc
        | some ib =>
          have hrec := ih d im hmem hrd hc
          cases hrc : read_chunk rd (some o) c with
          | error e => rfl
          | ok rest =>
            rw [hrc] at hrec
            simp [Except.isOk, Except.toBool] at hrec

theorem img_bulk_aux_established_error (rd : Int → Option SimImage)
    (o : Bool) :
    ∀ (cs : List (List Int)) (c : List Int) (d : Int) (im : SimImage),
      c ∈ cs → d ∈ c → rd d = some im → im.timekeyPresent = o →
      (img_bulk_aux rd (some o) cs).isOk = false := by
  intro cs
  induction cs with
  | nil =>
    intro c d im hc
    simp at hc
  | cons c0 cs ih =>
    intro c d im hc hd hrd hcontra
    rw [img_bulk_aux]
    rcases List.mem_cons.mp hc with rfl | hmem
    · have h := read_chunk_contradiction rd o c d im hd hrd hcontra
      cases hrc : read_chunk rd (some o) c with
      | error e => rfl
      | ok imgs =>
        rw [hrc] at h
        simp [Except.isOk, Except.toBool] at h
    · cases hrc : read_chunk rd (some o) c0 with
      | error e => rfl
      | ok imgs =>
        have hrec := ih c d im hmem hd hrd hcontra
        simp only [some_orElse_state]
        cases haux : img_bulk_aux rd (some o) cs with
        | error e => rfl
        | ok bs =>
          rw [haux] at hrec
          simp [Except.isOk, Except.toBool] at hrec

/-- C1 amended: the run layout mode is established by the first
successfully read image — orthogonal exactly when that image carries no
time key — and once the mode is established (`self.orthogonal = some o`,
i.e. from the next buffer chunk on), any image whose time-key presence
contradicts the mode makes `_read_image` raise `Img2TsError` and the run
fail.  However, images read in the same buffer chunk as the establishing
image are checked against the not-yet-updated state (`None`) and a
contradiction there is silently accepted (see the counterexample), so
the raise is only guaranteed for images of later chunks. -/
theorem img2ts_layout_consistency :
    (∀ (rd : Int → Option SimImage) (d : Int) (im : SimImage) (o : Bool),
      read_image rd none d = Except.ok (some (im, o)) →
        o = !im.timekeyPresent) ∧
    (∀ (rd : Int → Option SimImage) (o : Bool) (cs : List (List Int))
        (c : List Int) (d : Int) (im : SimImage),
      c ∈ cs → d ∈ c → rd d = some im → im.timekeyPresent = o →
        (img_bulk_aux rd (some o) cs).isOk = false) := by
  constructor
  · intro rd d im o h
    rw [read_image] at h
    split at h
    · simp at h
    · rename_i img hrdd
      split at h
      · simp at h
      · rename_i o2 hlc
        simp only [Except.ok.injEq, Option.some.injEq, Prod.mk.injEq] at h
        obtain ⟨him, ho⟩ := h
        subst him
        subst ho
        cases htp : img.timekeyPresent
        · rw [htp] at hlc
          have h2 : o2 = true := by
            simpa [layout_check] using hlc.symm
          simp [h2, htp]
        · rw [htp] at hlc
          have h2 : o2 = false := by
            simpa [layout_check] using hlc.symm
          simp [h2, htp]
  · intro rd o cs c d im hc hd hrd hcontra
    exact img_bulk_aux_established_error rd o cs c d im hc hd hrd hcontra

/-- Witness for C1 amended: day 1 of `rd_layout_mix` (no time key) read
against the fresh state establishes the orthogonal mode, and a later
chunk containing the contradicting day-2 image makes the run fail. -/
theorem img2ts_layout_consistency_witness :
    (true = !((⟨1, false, [("soil_moisture", [1])]⟩ : SimImage).timekeyPresent)) ∧
    (img_bulk_aux rd_layout_mix (some true) [[2]]).isOk = false :=
  ⟨img2ts_layout_consistency.1 rd_layout_mix 1
      ⟨1, false, [("soil_moisture", [1])]⟩ true (by rfl),
   img2ts_layout_consistency.2 rd_layout_mix true [[2]] [2] 2
      ⟨2, true, [("soil_moisture", [2]), ("tb_time_seconds", [5])]⟩
      (by simp) (by simp) (by rfl) (by rfl)⟩

/-! ## Claim C4: per-cell partitions conserve the grid locations -/

theorem npSplitGo_flatten :
    ∀ (idxs : List Nat) (off : Nat) (xs : List α),
      ((npSplitGo off xs idxs).flatten) = xs
  | [], off, xs => by simp [npSplitGo]
  | i :: is, off, xs => by
    simp only [npSplitGo, List.flatten_cons, npSplitGo_flatten is i _]
    exact List.take_append_drop _ xs

theorem np_split_flatten (xs : List α) (idxs : List Nat) :
    ((npSplit xs idxs).flatten) = xs :=
  npSplitGo_flatten idxs 0 xs

theorem adjSorted_pairwise :
    ∀ (l : List Int), adjSorted l = true → l.Pairwise (· ≤ ·)
  | [], _ => List.Pairwise.nil
  | [_], _ => by simp
  | a :: b :: r, h => by
    simp only [adjSorted, Bool.and_eq_true, decide_eq_true_eq] at h
    obtain ⟨hab, hrest⟩ := h
    have hp := adjSorted_pairwise (b :: r) hrest
    refine List.Pairwise.cons ?_ hp
    intro x hx
    rcases List.mem_cons.mp hx with rfl | hx2
    · exact hab
    · exact le_trans hab (List.rel_of_pairwise_cons hp hx2)

theorem unique_first_idxs_head (c0 : Int) (rest : List Int)
    (hp : (c0 :: rest).Pairwise (· ≤ ·)) :
    ∃ is, unique_first_idxs (c0 :: rest) = 0 :: is := by
  have hmemdedup : c0 ∈ (c0 :: rest).dedup := by
    rw [List.mem_dedup]
    simp
  have hpermsort := List.perm_insertionSort (fun a b : Int => a ≤ b)
    (c0 :: rest).dedup
  have hc0sort : c0 ∈ List.insertionSort (fun a b : Int => a ≤ b)
      (c0 :: rest).dedup := hpermsort.mem_iff.mpr hmemdedup
  have hsorted : (List.insertionSort (fun a b : Int => a ≤ b)
      (c0 :: rest).dedup).Pairwise (fun a b : Int => a ≤ b) :=
    List.sorted_insertionSort _ _
  match hsl : List.insertionSort (fun a b : Int => a ≤ b)
      (c0 :: rest).dedup with
  | [] =>
    rw [hsl] at hc0sort
    simp at hc0sort
  | v0 :: tl =>
    have hv0mem : v0 ∈ c0 :: rest := by
      have : v0 ∈ List.insertionSort (fun a b : Int => a ≤ b)
          (c0 :: rest).dedup := by
        rw [hsl]
        simp
      have h2 := hpermsort.mem_iff.mp this
      exact (List.mem_dedup.mp h2)
    have hc0le : c0 ≤ v0 := by
      rcases List.mem_cons.mp hv0mem with rfl | hx
      · exact le_refl _
      · exact List.rel_of_pairwise_cons hp hx
    have hv0le : v0 ≤ c0 := by
      rw [hsl] at hc0sort hsorted
      rcases List.mem_cons.mp hc0sort with rfl | hx
      · exact le_refl _
      · exact List.rel_of_pairwise_cons hsorted hx
    have hv0 : v0 = c0 := le_antisymm hv0le hc0le
    refine ⟨tl.map (fun v => (c0 :: rest).indexOf v), ?_⟩
    rw [unique_first_idxs, hsl, hv0]
    simp [List.indexOf_cons_self]

theorem partition_flatten_eq (cs gs : List Int)
    (hp : cs.Pairwise (· ≤ ·)) (hlen : cs.length = gs.length) :
    (((npSplit gs (unique_first_idxs cs)).drop 1).flatten) = gs := by
  match cs, hp with
  | [], _ =>
    have hgs : gs = [] := by
      have := hlen.symm
      simpa using this
    subst hgs
    simp [unique_first_idxs, npSplit, npSplitGo]
  | c0 :: rest, hp =>
    obtain ⟨is, his⟩ := unique_first_idxs_head c0 rest hp
    rw [his]
    simp only [npSplit, npSplitGo, Nat.zero_sub, List.drop_zero,
      List.take_zero, List.drop_succ_cons, List.drop_nil]
    exact npSplitGo_flatten is 0 gs

theorem countP_parts_of_flatten_nodup (parts : List (List Int)) (g : Int)
    (hnd : parts.flatten.Nodup) (hg : g ∈ parts.flatten) :
    parts.countP (fun part => decide (g ∈ part)) = 1 := by
  induction parts with
  | nil => simp at hg
  | cons p ps ih =>
    rw [List.flatten_cons] at hg hnd
    rw [List.countP_cons]
    have hnd2 := List.nodup_append.mp hnd
    by_cases hgp : g ∈ p
    · have hgnot : g ∉ ps.flatten := fun hcon => hnd2.2.2 hgp hcon
      have hz : ps.countP (fun part => decide (g ∈ part)) = 0 := by
        rw [List.countP_eq_zero]
        intro part hpart
        simp only [decide_eq_true_eq]
        intro hgpart
        exact hgnot (List.mem_flatten.mpr ⟨part, hpart, hgpart⟩)
      simp [hz, hgp]
    · have hgf : g ∈ ps.flatten := by
        rcases List.mem_append.mp hg with h | h
        · exact absurd h hgp
        · exact h
      have hr := ih hnd2.2.1 hgf
      simp [hr, hgp]

/-- C4: the per-cell partition computed by `Img2Ts.calc` is exact: the
concatenation of the per-cell gpi groups is a permutation of the grid's
active gpis (so their union is the active set and, the active gpis being
distinct, no gpi lands in two cells), the per-cell location counts sum to
the total active location count, and every active gpi lies in exactly
one cell group. -/
theorem calc_partition_exact (cells gpis : List Int)
    (hlen : cells.length = gpis.length) (hnd : gpis.Nodup) :
    ((calc_partition cells gpis).flatten).Perm gpis ∧
    (((calc_partition cells gpis).map List.length).sum = gpis.length) ∧
    (∀ g ∈ gpis,
      ((calc_partition cells gpis).countP
        (fun part => decide (g ∈ part))) = 1) := by
  have hperm : ((calc_partition cells gpis).flatten).Perm gpis := by
    by_cases hs : adjSorted cells = true
    · simp only [calc_partition, hs, if_true]
      rw [partition_flatten_eq cells gpis (adjSorted_pairwise cells hs) hlen]
    · have hsf : adjSorted cells = false := by
        cases h : adjSorted cells
        · rfl
        · exact absurd h hs
      simp only [calc_partition, hsf, Bool.false_eq_true, if_false]
      have hpermP : (argsort cells).Perm (List.range gpis.length) := by
        rw [← hlen]
        exact argsort_perm cells
      have hgs : (applyPerm (argsort cells) gpis 0).Perm gpis :=
        applyPerm_perm _ _ _ hpermP
      have hcs : (applyPerm (argsort cells) cells 0).Pairwise (· ≤ ·) :=
        applyPerm_argsort_sorted cells
      have hlen2 : (applyPerm (argsort cells) cells 0).length =
          (applyPerm (argsort cells) gpis 0).length := by
        simp [applyPerm]
      rw [partition_flatten_eq _ _ hcs hlen2]
      exact hgs
  refine ⟨hperm, ?_, ?_⟩
  · have hle := hperm.length_eq
    simpa [List.length_flatten] using hle
  · intro g hg
    have hfn : ((calc_partition cells gpis).flatten).Nodup :=
      hperm.symm.nodup hnd
    have hgf : g ∈ (calc_partition cells gpis).flatten :=
      hperm.symm.subset hg
    exact countP_parts_of_flatten_nodup _ g hfn hgf

/-- Witness for C4 at a concrete grid: cells `[1, 1, 2]` with gpis
`[10, 11, 12]` partition into the two cell groups `[10, 11]` and `[12]`. -/
theorem calc_partition_exact_witness :
    ((calc_partition [1, 1, 2] [10, 11, 12]).flatten).Perm [10, 11, 12] ∧
    (((calc_partition [1, 1, 2] [10, 11, 12]).map List.length).sum = 3) ∧
    (∀ g ∈ [(10 : Int), 11, 12],
      ((calc_partition [1, 1, 2] [10, 11, 12]).countP
        (fun part => decide (g ∈ part))) = 1) :=
  calc_partition_exact [1, 1, 2] [10, 11, 12] (by decide) (by decide)

/-! ## Claim C5: sentinel-timestamp exclusion in the ragged writer -/

theorem maskFilter_cons (b : Bool) (m : List Bool) (x : α) (xs : List α) :
    maskFilter (b :: m) (x :: xs) =
      (if b then [x] else []) ++ maskFilter m xs := by
  cases b <;> simp [maskFilter]

theorem wno_tvalid_none (ts : List (Option ℚ)) :
    wno_tvalid (none :: ts) = wno_tvalid ts := by
  simp [wno_tvalid, wno_valid_mask, maskFilter_cons]

theorem wno_keep_none (ts : List (Option ℚ)) :
    wno_keep (none :: ts) = wno_keep ts := by
  simp [wno_keep, wno_tvalid_none]

theorem wno_col_none (ts : List (Option ℚ)) (x : α) (xs : List α) :
    wno_col (none :: ts) (x :: xs) = wno_col ts xs := by
  simp [wno_col, wno_valid_mask, wno_keep_none, maskFilter_cons]

theorem wno_tvalid_some (t : ℚ) (ts : List (Option ℚ)) :
    wno_tvalid (some t :: ts) = t :: wno_tvalid ts := by
  simp [wno_tvalid, wno_valid_mask, maskFilter_cons]

theorem wno_keep_some (t : ℚ) (ts : List (Option ℚ)) :
    wno_keep (some t :: ts) =
      (decide (¬(t = sentinelTime))) :: wno_keep ts := by
  simp [wno_keep, wno_tvalid_some]

theorem wno_col_some (t : ℚ) (ts : List (Option ℚ)) (x : α) (xs : List α) :
    wno_col (some t :: ts) (x :: xs) =
      (if decide (¬(t = sentinelTime)) then [x] else []) ++ wno_col ts xs := by
  simp only [wno_col, wno_valid_mask, List.map_cons, Option.isSome_some,
    maskFilter_cons, wno_keep_some, if_true]
  simp [maskFilter_cons]

theorem wno_pair_col (ts : List (Option ℚ)) :
    ∀ (xs : List α), xs.length = ts.length →
      (wno_col ts xs).zip (maskFilter (wno_keep ts) (wno_tvalid ts)) =
        (ts.zip xs).filterMap
          (fun p => p.1.bind
            (fun t => if t = sentinelTime then none else some (p.2, t))) := by
  induction ts with
  | nil =>
    intro xs h
    simp [wno_col, wno_keep, wno_tvalid, wno_valid_mask, maskFilter]
  | cons o ts ih =>
    intro xs h
    match xs with
    | [] => simp at h
    | x :: xs =>
      have hlen : xs.length = ts.length := by simpa using h
      cases o with
      | none =>
        rw [wno_col_none, wno_keep_none, wno_tvalid_none,
          List.zip_cons_cons, List.filterMap_cons]
        simp only [Option.none_bind]
        exact ih xs hlen
      | some t =>
        rw [wno_col_some, wno_keep_some, wno_tvalid_some,
          List.zip_cons_cons, List.filterMap_cons, maskFilter_cons]
        by_cases hts : t = sentinelTime
        · have hd : (decide (¬(t = sentinelTime))) = false := by
            simp [hts]
          rw [hd]
          simp only [Bool.false_eq_true, if_false, List.nil_append]
          rw [ih xs hlen]
          simp [hts]
        · have hd : (decide (¬(t = sentinelTime))) = true := by
            simp [hts]
          rw [hd]
          simp only [if_true, List.singleton_append, List.zip_cons_cons]
          rw [ih xs hlen]
          simp [hts]

theorem wno_time_filter (ts : List (Option ℚ)) :
    maskFilter (wno_keep ts) (wno_tvalid ts) =
      (ts.filterMap id).filter (fun t => decide (¬(t = sentinelTime))) := by
  induction ts with
  | nil => simp [wno_keep, wno_tvalid, wno_valid_mask, maskFilter]
  | cons o ts ih =>
    cases o with
    | none =>
      rw [wno_keep_none, wno_tvalid_none, List.filterMap_cons]
      simpa using ih
    | some t =>
      rw [wno_keep_some, wno_tvalid_some, List.filterMap_cons,
        maskFilter_cons]
      by_cases hts : t = sentinelTime
      · have hd : (decide (¬(t = sentinelTime))) = false := by
          simp [hts]
        rw [hd]
        simp only [Bool.false_eq_true, if_false, List.nil_append]
        rw [ih]
        simp [List.filter_cons, hts]
      · have hd : (decide (¬(t = sentinelTime))) = true := by
          simp [hts]
        rw [hd]
        simp only [if_true, List.singleton_append]
        rw [ih]
        simp [List.filter_cons, hts]

theorem flatten_length_uniform (tm : List (List γ)) (nT : Nat)
    (h : ∀ r ∈ tm, r.length = nT) : tm.flatten.length = tm.length * nT := by
  induction tm with
  | nil => simp
  | cons r tm ih =>
    simp only [List.flatten_cons, List.length_append, List.length_cons]
    rw [h r (by simp), ih (fun x hx => h x (by simp [hx]))]
    ring

theorem flatMap_replicate_length (cg : List γ) (nT : Nat) :
    (cg.flatMap (fun g => List.replicate nT g)).length = cg.length * nT := by
  induction cg with
  | nil => simp
  | cons g cg ih =>
    simp only [List.flatMap_cons, List.length_append, List.length_replicate,
      List.length_cons, ih]
    ring

/-- C5: in ragged mode with `exclude_missing_time_stamps=True`, the
records handed to `IndexedRaggedTs.write` are exactly the input records
with a valid, non-sentinel timestamp, in order, with the gpi/lon/lat and
every data column kept aligned with the timestamp column: the written
timestamp list is the valid input timestamps minus exactly the
sentinel-valued ones, and zipping any written column with the written
timestamps reproduces the input records filtered by that one predicate. -/
theorem write_non_orthogonal_sentinel_exclusion
    (cg : List Int) (cl cla : List ℚ) (tm : List (List (Option ℚ)))
    (vars : List (String × List (List ℚ))) (nT : Nat)
    (htm : tm.length = cg.length)
    (hrow : ∀ r ∈ tm, r.length = nT)
    (hcl : cl.length = cg.length) (hcla : cla.length = cg.length)
    (hv : ∀ kv ∈ vars, kv.2.length = cg.length ∧ ∀ r ∈ kv.2, r.length = nT) :
    ((write_non_orthogonal true cg cl cla tm vars nT).time =
      (tm.flatten.filterMap id).filter
        (fun t => decide (¬(t = sentinelTime)))) ∧
    ((write_non_orthogonal true cg cl cla tm vars nT).gpis.zip
        (write_non_orthogonal true cg cl cla tm vars nT).time =
      (tm.flatten.zip (cg.flatMap (fun g => List.replicate nT g))).filterMap
        (fun p => p.1.bind
          (fun t => if t = sentinelTime then none else some (p.2, t)))) ∧
    ((write_non_orthogonal true cg cl cla tm vars nT).lons.zip
        (write_non_orthogonal true cg cl cla tm vars nT).time =
      (tm.flatten.zip (cl.flatMap (fun x => List.replicate nT x))).filterMap
        (fun p => p.1.bind
          (fun t => if t = sentinelTime then none else some (p.2, t)))) ∧
    ((write_non_orthogonal true cg cl cla tm vars nT).lats.zip
        (write_non_orthogonal true cg cl cla tm vars nT).time =
      (tm.flatten.zip (cla.flatMap (fun x => List.replicate nT x))).filterMap
        (fun p => p.1.bind
          (fun t => if t = sentinelTime then none else some (p.2, t)))) ∧
    ((write_non_orthogonal true cg cl cla tm vars nT).data =
      vars.map (fun kv => (kv.1, wno_col tm.flatten kv.2.flatten))) ∧
    (∀ kv ∈ vars,
      (wno_col tm.flatten kv.2.flatten).zip
          (write_non_orthogonal true cg cl cla tm vars nT).time =
        (tm.flatten.zip kv.2.flatten).filterMap
          (fun p => p.1.bind
            (fun t => if t = sentinelTime then none else some (p.2, t)))) := by
  have hts_len : tm.flatten.length = cg.length * nT := by
    rw [flatten_length_uniform tm nT hrow, htm]
  have htime : (write_non_orthogonal true cg cl cla tm vars nT).time =
      maskFilter (wno_keep tm.flatten) (wno_tvalid tm.flatten) := rfl
  refine ⟨?_, ?_, ?_, ?_, rfl, ?_⟩
  · rw [htime]
    exact wno_time_filter tm.flatten
  · rw [htime]
    exact wno_pair_col tm.flatten _
      (by rw [flatMap_replicate_length, hts_len])
  · rw [htime]
    exact wno_pair_col tm.flatten _
      (by rw [flatMap_replicate_length, hts_len, hcl])
  · rw [htime]
    exact wno_pair_col tm.flatten _
      (by rw [flatMap_replicate_length, hts_len, hcla])
  · intro kv hkv
    rw [htime]
    refine wno_pair_col tm.flatten _ ?_
    rw [flatten_length_uniform kv.2 nT (hv kv hkv).2, hts_len, (hv kv hkv).1]

/-- Witness for C5 at the concrete scenario of the claim: location A
(gpi 1) has timestamps `[100, sentinel]`, location B (gpi 2) has
`[150, 200]`; with exclusion enabled exactly the three records A at 100,
B at 150 and B at 200 reach the write call, with all columns aligned,
and A at the sentinel is dropped. -/
theorem write_non_orthogonal_sentinel_exclusion_witness :
    ((write_non_orthogonal true [1, 2] [10, 20] [30, 40]
        [[some 100, some (-9999)], [some 150, some 200]]
        [("soil_moisture", [[7, 8], [9, 11]])] 2).gpis = [1, 2, 2]) ∧
    ((write_non_orthogonal true [1, 2] [10, 20] [30, 40]
        [[some 100, some (-9999)], [some 150, some 200]]
        [("soil_moisture", [[7, 8], [9, 11]])] 2).time = [100, 150, 200]) ∧
    ((write_non_orthogonal true [1, 2] [10, 20] [30, 40]
        [[some 100, some (-9999)], [some 150, some 200]]
        [("soil_moisture", [[7, 8], [9, 11]])] 2).data =
      [("soil_moisture", [7, 9, 11])]) ∧
    ((write_non_orthogonal true [1, 2] [10, 20] [30, 40]
        [[some 100, some (-9999)], [some 150, some 200]]
        [("soil_moisture", [[7, 8], [9, 11]])] 2).gpis.zip
      (write_non_orthogonal true [1, 2] [10, 20] [30, 40]
        [[some 100, some (-9999)], [some 150, some 200]]
        [("soil_moisture", [[7, 8], [9, 11]])] 2).time =
      (([[some 100, some (-9999)],
         [some 150, some 200]] : List (List (Option ℚ))).flatten.zip
        (([1, 2] : List Int).flatMap (fun g => List.replicate 2 g))).filterMap
        (fun p => p.1.bind
          (fun t => if t = sentinelTime then none else some (p.2, t)))) :=
  ⟨by decide, by decide, by decide,
   (write_non_orthogonal_sentinel_exclusion [1, 2] [10, 20] [30, 40]
      [[some 100, some (-9999)], [some 150, some 200]]
      [("soil_moisture", [[7, 8], [9, 11]])] 2
      (by decide) (by decide) (by decide) (by decide) (by decide)).2.1⟩


/-! ## Claim C6: the subset path of the resample decision -/

theorem nearestFold_eq_or_mem (l : List (Int × ℤ)) (init : Int × ℤ) :
    nearestFold l init = init ∨ nearestFold l init ∈ l := by
  induction l generalizing init with
  | nil => exact Or.inl rfl
  | cons c cs ih =>
    have hstep : nearestFold (c :: cs) init =
        nearestFold cs (if c.2 < init.2 then c else init) := rfl
    rw [hstep]
    rcases ih (if c.2 < init.2 then c else init) with h | h
    · rw [h]
      by_cases hc : c.2 < init.2
      · right
        simp [hc]
      · left
        simp [hc]
    · right
      exact List.mem_cons_of_mem _ h

theorem nearestFold_min (l : List (Int × ℤ)) (init : Int × ℤ) :
    (nearestFold l init).2 ≤ init.2 ∧
      ∀ x ∈ l, (nearestFold l init).2 ≤ x.2 := by
  induction l generalizing init with
  | nil => exact ⟨le_refl _, by simp⟩
  | cons c cs ih =>
    have hstep : nearestFold (c :: cs) init =
        nearestFold cs (if c.2 < init.2 then c else init) := rfl
    have h := ih (if c.2 < init.2 then c else init)
    constructor
    · rw [hstep]
      refine le_trans h.1 ?_
      by_cases hc : c.2 < init.2
      · simp only [hc, if_true]
        exact le_of_lt hc
      · simp [hc]
    · intro x hx
      rw [hstep]
      rcases List.mem_cons.mp hx with rfl | hx2
      · refine le_trans h.1 ?_
        by_cases hc : x.2 < init.2
        · simp [hc]
        · simp only [hc, if_false]
          exact le_of_not_lt hc
      · exact h.2 x hx2

theorem sqDist_self (a b : ℤ) : sqDist a b a b = 0 := by
  simp [sqDist]

theorem sqDist_nonneg (a b c d : ℤ) : 0 ≤ sqDist a b c d :=
  add_nonneg (mul_self_nonneg _) (mul_self_nonneg _)

theorem sqDist_eq_zero_iff (a b c d : ℤ) :
    sqDist a b c d = 0 ↔ a = c ∧ b = d := by
  unfold sqDist
  constructor
  · intro h
    have h1 : (a - c) * (a - c) = 0 := by
      nlinarith [mul_self_nonneg (a - c), mul_self_nonneg (b - d)]
    have h2 : (b - d) * (b - d) = 0 := by
      nlinarith [mul_self_nonneg (a - c), mul_self_nonneg (b - d)]
    have h3 : a - c = 0 := mul_self_eq_zero.mp h1
    have h4 : b - d = 0 := mul_self_eq_zero.mp h2
    constructor
    · linarith
    · linarith
  · rintro ⟨rfl, rfl⟩
    ring

theorem find_nearest_gpi_exact (g : List GridPoint) (q : GridPoint)
    (hq : q ∈ g)
    (hcoord : (g.map (fun p => (p.lon, p.lat))).Nodup) :
    find_nearest_gpi g q.lon q.lat = (q.gpi, 0) := by
  match hg : g.map (fun p => (p.gpi, sqDist p.lon p.lat q.lon q.lat)) with
  | [] =>
    have : g = [] := by
      cases g
      · rfl
      · simp at hg
    rw [this] at hq
    simp at hq
  | c :: cs =>
    have hres : find_nearest_gpi g q.lon q.lat = nearestFold cs c := by
      rw [find_nearest_gpi, hg]
    have hmem : nearestFold cs c ∈ c :: cs := by
      rcases nearestFold_eq_or_mem cs c with h | h
      · rw [h]
        simp
      · exact List.mem_cons_of_mem _ h
    have hmin : ∀ x ∈ c :: cs, (nearestFold cs c).2 ≤ x.2 := by
      intro x hx
      rcases List.mem_cons.mp hx with hxc | hx2
      · rw [hxc]
        exact (nearestFold_min cs c).1
      · exact (nearestFold_min cs c).2 x hx2
    have hqentry : (q.gpi, (0 : ℤ)) ∈ c :: cs := by
      rw [← hg]
      have := List.mem_map_of_mem
        (fun p => (p.gpi, sqDist p.lon p.lat q.lon q.lat)) hq
      simpa [sqDist_self] using this
    have hle0 : (nearestFold cs c).2 ≤ 0 := by
      have := hmin _ hqentry
      simpa using this
    have hmemg : nearestFold cs c ∈
        g.map (fun p => (p.gpi, sqDist p.lon p.lat q.lon q.lat)) := by
      rw [hg]
      exact hmem
    obtain ⟨p, hp, hpe⟩ := List.mem_map.mp hmemg
    have hz : sqDist p.lon p.lat q.lon q.lat = 0 := by
      have heq : (nearestFold cs c).2 = sqDist p.lon p.lat q.lon q.lat := by
        rw [← hpe]
      have hge := sqDist_nonneg p.lon p.lat q.lon q.lat
      have h0 : sqDist p.lon p.lat q.lon q.lat ≤ 0 := by
        rw [← heq]
        exact hle0
      linarith
    have hco := (sqDist_eq_zero_iff _ _ _ _).mp hz
    have hpq : p = q := by
      have hinj := List.inj_on_of_nodup_map hcoord
      exact hinj hp hq (by simp [hco.1, hco.2])
    rw [hres, ← hpe, hz, hpq]

theorem is_subset_grid_of_sublist (input target : List GridPoint)
    (hsub : target.Sublist input)
    (hcoord : (input.map (fun p => (p.lon, p.lat))).Nodup) :
    is_subset_grid input target true = true := by
  have hnn : ∀ q ∈ target, find_nearest_gpi input q.lon q.lat = (q.gpi, 0) :=
    fun q hq => find_nearest_gpi_exact input q (hsub.subset hq) hcoord
  have hmap : target.map (fun q => find_nearest_gpi input q.lon q.lat) =
      target.map (fun q => (q.gpi, (0 : ℤ))) :=
    List.map_congr_left hnn
  rw [is_subset_grid]
  simp only [hmap]
  have hall : (target.map (fun q => (q.gpi, (0 : ℤ)))).all
      (fun r => r.2 == 0) = true := by
    rw [List.all_eq_true]
    intro r hr
    obtain ⟨q, _, hqe⟩ := List.mem_map.mp hr
    rw [← hqe]
    simp
  rw [hall]
  simp [List.map_map, Function.comp]

theorem resample_flag_subset (input target : List GridPoint)
    (hsub : target.Sublist input) (hlen : target.length < input.length)
    (hcoord : (input.map (fun p => (p.lon, p.lat))).Nodup) :
    resample_flag input target = false := by
  have hne : ¬(input = target) := by
    intro h
    rw [h] at hlen
    exact lt_irrefl _ hlen
  rw [resample_flag, if_neg hne,
    if_pos (is_subset_grid_of_sublist input target hsub hcoord)]

theorem filter_mem_of_sublist_nodup (target input : List GridPoint)
    (hsub : target.Sublist input) :
    (input.map GridPoint.gpi).Nodup →
    input.filter (fun p => decide (p.gpi ∈ target.map GridPoint.gpi)) =
      target := by
  induction hsub with
  | slnil =>
    intro _
    rfl
  | @cons l₁ l₂ a hs ih =>
    intro hnd
    rw [List.map_cons] at hnd
    have hnd2 : (l₂.map GridPoint.gpi).Nodup := (List.nodup_cons.mp hnd).2
    have hanotin : a.gpi ∉ l₂.map GridPoint.gpi := (List.nodup_cons.mp hnd).1
    have hnotin : ¬(a.gpi ∈ l₁.map GridPoint.gpi) := by
      intro hmem
      exact hanotin ((hs.map GridPoint.gpi).subset hmem)
    rw [List.filter_cons, if_neg (by simpa using hnotin)]
    exact ih hnd2
  | @cons₂ l₁ l₂ a hs ih =>
    intro hnd
    rw [List.map_cons] at hnd
    have hnd2 : (l₂.map GridPoint.gpi).Nodup := (List.nodup_cons.mp hnd).2
    have hanotin : a.gpi ∉ l₂.map GridPoint.gpi := (List.nodup_cons.mp hnd).1
    have hcond : a.gpi ∈ (a :: l₁).map GridPoint.gpi := by simp
    rw [List.filter_cons, if_pos (by simp)]
    congr 1
    have hcongr : ∀ p ∈ l₂,
        (decide (p.gpi ∈ (a :: l₁).map GridPoint.gpi)) =
        (decide (p.gpi ∈ l₁.map GridPoint.gpi)) := by
      intro p hp
      have hpa : p.gpi ≠ a.gpi := by
        intro he
        exact hanotin (he ▸ (List.mem_map_of_mem GridPoint.gpi hp))
      simp [hpa]
    rw [List.filter_congr hcongr]
    exact ih hnd2

theorem filter_zip_maskFilter (pred : α → Bool) :
    ∀ (l : List α) (v : List β), v.length = l.length →
      (l.filter pred).zip (maskFilter (l.map pred) v) =
        (l.zip v).filter (fun p => pred p.1) := by
  intro l
  induction l with
  | nil =>
    intro v h
    simp [maskFilter]
  | cons a l ih =>
    intro v h
    match v with
    | [] => simp at h
    | x :: v =>
      have hlen : v.length = l.length := by simpa using h
      rw [List.map_cons, maskFilter_cons, List.filter_cons,
        List.zip_cons_cons, List.filter_cons]
      by_cases hpa : pred a = true
      · simp only [hpa, if_true, List.singleton_append, List.zip_cons_cons]
        rw [ih v hlen]
      · have hpa2 : pred a = false := by
          cases hp : pred a
          · rfl
          · exact absurd hp hpa
        simp only [hpa2, Bool.false_eq_true, if_false, List.nil_append]
        exact ih v hlen

/-- C6 amended: when the target grid is a strict subset of the input grid
whose active points keep the input's relative order (same coordinates and
gpis for the common points, fewer active locations), Img2Ts takes the
Subset path, not the Resample path, and the selected values pair with the
target points exactly as the same values paired with the same points in
the input — no interpolation, every retained location keeps its exact
input value.  (When the target permutes the common points relative to the
input the Subset path is still taken but misassigns the values; see the
counterexample.) -/
theorem img2ts_subset_path_exact (input target : List GridPoint)
    (v : List ℚ)
    (hsub : target.Sublist input)
    (hlen : target.length < input.length)
    (hnd : (input.map GridPoint.gpi).Nodup)
    (hcoord : (input.map (fun p => (p.lon, p.lat))).Nodup)
    (hv : v.length = input.length) :
    resample_flag input target = false ∧
    read_image_spatial (resample_flag input target) input target v =
      SpatialResult.subsetPath
        (maskFilter
          (input.map (fun p => decide (p.gpi ∈ target.map GridPoint.gpi)))
          v) ∧
    target.zip
        (maskFilter
          (input.map (fun p => decide (p.gpi ∈ target.map GridPoint.gpi)))
          v) =
      (input.zip v).filter
        (fun p => decide (p.1.gpi ∈ target.map GridPoint.gpi)) := by
  have hflag := resample_flag_subset input target hsub hlen hcoord
  refine ⟨hflag, ?_, ?_⟩
  · rw [hflag, read_image_spatial,
      if_neg (by simp), if_pos (Nat.ne_of_lt hlen)]
  · have hfil := filter_mem_of_sublist_nodup target input hsub hnd
    have hz := filter_zip_maskFilter
      (fun p => decide (p.gpi ∈ target.map GridPoint.gpi)) input v hv
    rw [hfil] at hz
    exact hz

/-- C6 counterexample: `targetC6` is a strict subset of `inputC6` with the
same coordinates and gpis for the common points, the Subset path is
taken (`resample_flag` is false), but because the target's active order
permutes the input's order the selected values are misassigned: the
retained location with gpi 2 receives the value 10 while its input value
is 30, so the claimed exact value equality fails. -/
theorem img2ts_subset_order_counterexample :
    resample_flag inputC6 targetC6 = false ∧
    read_image_spatial (resample_flag inputC6 targetC6) inputC6 targetC6
        [10, 20, 30] = SpatialResult.subsetPath [10, 30] ∧
    value_at targetC6 [10, 30] 2 = some 10 ∧
    value_at inputC6 [10, 20, 30] 2 = some 30 ∧
    ¬((10 : ℚ) = 30) :=
  ⟨by decide, by decide, by decide, by decide, by decide⟩

/-- Witness for C6 amended at an order-preserving strict subset of
`inputC6`: gpis 0 and 2 are retained with their exact input values. -/
theorem img2ts_subset_path_exact_witness :
    resample_flag inputC6 [⟨0, 0, 0⟩, ⟨2, 2, 0⟩] = false ∧
    read_image_spatial (resample_flag inputC6 [⟨0, 0, 0⟩, ⟨2, 2, 0⟩])
        inputC6 [⟨0, 0, 0⟩, ⟨2, 2, 0⟩] ([10, 20, 30] : List ℚ) =
      SpatialResult.subsetPath
        (maskFilter
          (inputC6.map (fun p => decide
            (p.gpi ∈ ([⟨0, 0, 0⟩, ⟨2, 2, 0⟩] : List GridPoint).map
              GridPoint.gpi)))
          ([10, 20, 30] : List ℚ)) ∧
    ([⟨0, 0, 0⟩, ⟨2, 2, 0⟩] : List GridPoint).zip
        (maskFilter
          (inputC6.map (fun p => decide
            (p.gpi ∈ ([⟨0, 0, 0⟩, ⟨2, 2, 0⟩] : List GridPoint).map
              GridPoint.gpi)))
          ([10, 20, 30] : List ℚ)) =
      (inputC6.zip ([10, 20, 30] : List ℚ)).filter
        (fun p => decide
          (p.1.gpi ∈ ([⟨0, 0, 0⟩, ⟨2, 2, 0⟩] : List GridPoint).map
            GridPoint.gpi)) :=
  img2ts_subset_path_exact inputC6 [⟨0, 0, 0⟩, ⟨2, 2, 0⟩] [10, 20, 30]
    (by decide) (by decide) (by decide) (by decide) (by decide)

end Smap
